import Mathlib

/-!
Shallow embedding of the alignment/compositing core of the face-swap
repository (files face_swap_ml.py and face_swap.py).

Pixel values and coordinates are modelled over the rationals; the 8-bit
quantisation steps of the code (astype to uint8) are modelled with
explicit floor/clip where a claim depends on them.  The external neural
networks (landmark mesh, ArcFace, inswapper) and the interpolating
resampler inside cv2.warpAffine are opaque to the repository's code and
appear here as universally quantified parameters; everything the
repository's own lines compute is defined concretely below.
-/

namespace FaceSwap

/-! ## Affine transforms (RoopCore.swap lines 134-136 and 164-165)

cv2.estimateAffinePartial2D fits a similarity transform: a 2x3 matrix
whose linear part is a rotation plus uniform scale, written
[[a, -b, tx], [b, a, ty]].  cv2.invertAffineTransform inverts a general
2x3 affine matrix exactly. -/

/-- General 2x3 affine matrix [[m00, m01, m02], [m10, m11, m12]],
as handled by cv2.warpAffine and cv2.invertAffineTransform. -/
structure Aff where
  m00 : ℚ
  m01 : ℚ
  m02 : ℚ
  m10 : ℚ
  m11 : ℚ
  m12 : ℚ
deriving DecidableEq

/-- Similarity transform returned by cv2.estimateAffinePartial2D:
rotation+uniform scale (a, b) and translation (tx, ty). -/
structure Sim where
  a : ℚ
  b : ℚ
  tx : ℚ
  ty : ℚ
deriving DecidableEq, Inhabited

/-- The 2x3 matrix [[a, -b, tx], [b, a, ty]] of a similarity transform. -/
def Sim.toAff (s : Sim) : Aff :=
  ⟨s.a, -s.b, s.tx, s.b, s.a, s.ty⟩

/-- Application of a 2x3 affine matrix to a 2D point. -/
def applyAff (M : Aff) (p : ℚ × ℚ) : ℚ × ℚ :=
  (M.m00 * p.1 + M.m01 * p.2 + M.m02, M.m10 * p.1 + M.m11 * p.2 + M.m12)

/-- Determinant of the linear 2x2 part of a 2x3 affine matrix. -/
def affDet (M : Aff) : ℚ := M.m00 * M.m11 - M.m01 * M.m10

/-- cv2.invertAffineTransform: exact inverse of a 2x3 affine matrix,
inverting the 2x2 linear part and mapping the translation through it
(RoopCore.swap line 165). -/
def invertAffineTransform (M : Aff) : Aff :=
  let D := affDet M
  ⟨M.m11 / D, -M.m01 / D, (M.m01 * M.m12 - M.m11 * M.m02) / D,
   -M.m10 / D, M.m00 / D, (M.m10 * M.m02 - M.m00 * M.m12) / D⟩

/-- Round-trip identity for an invertible affine matrix: follows cv2's
exact inversion formula. -/
theorem applyAff_invert (M : Aff) (hD : affDet M ≠ 0) (p : ℚ × ℚ) :
    applyAff (invertAffineTransform M) (applyAff M p) = p := by
  obtain ⟨x, y⟩ := p
  simp only [applyAff, invertAffineTransform, affDet, Prod.mk.injEq] at *
  constructor <;> field_simp <;> ring

/-- The four corners of the 128x128 canonical crop used for the
inswapper alignment (pixel index range 0..127). -/
def cropCorners128 : List (ℚ × ℚ) := [(0, 0), (127, 0), (0, 127), (127, 127)]

/-! ## Aligner (RoopCore.norm_crop, lines 71-75)

cv2.estimateAffinePartial2D(from_pts, to_pts) asserts that the two point
lists have the same length (and at least two points) and raises a
cv2.error otherwise; the repository passes the detected landmarks and
the fixed 5-point ARC_FACE_DST, so a landmark list of fewer than 5
points makes the call fail before any fit.  The least-median-of-squares
fit itself is numerical search code inside OpenCV, modelled as an
opaque parameter. -/

/-- Error raised out of the alignment step (cv2.error on malformed
input point lists). -/
inductive AlignErr where
  | invalidInput
deriving DecidableEq

/-- ARC_FACE_DST: the five canonical 112x112 ArcFace reference points
(face_swap_ml.py lines 15-21), exact decimal values. -/
def ARC_FACE_DST : List (ℚ × ℚ) :=
  [(382946/10000, 516963/10000),
   (735318/10000, 515014/10000),
   (560252/10000, 717366/10000),
   (415493/10000, 923655/10000),
   (707299/10000, 922041/10000)]

/-- cv2.estimateAffinePartial2D: validates that the source and
destination point lists have equal length and at least two points, then
runs the (opaque) robust similarity fit. -/
def estimateAffinePartial2D (fit : List (ℚ × ℚ) → List (ℚ × ℚ) → Sim)
    (src dst : List (ℚ × ℚ)) : Except AlignErr Sim :=
  if src.length = dst.length ∧ 2 ≤ src.length then .ok (fit src dst)
  else .error .invalidInput

/-- Three-channel image: height, width, and an 8-bit pixel value (as a
natural number) per row, column, channel. -/
structure Img3 where
  h : ℕ
  w : ℕ
  pix : ℕ → ℕ → Fin 3 → ℕ

/-- Single-channel 8-bit image (the blend mask). -/
structure Img1 where
  h : ℕ
  w : ℕ
  pix : ℕ → ℕ → ℕ

/-- RoopCore.norm_crop (lines 71-75): estimate the similarity transform
from the landmarks to ARC_FACE_DST, then warp the image to
image_size x image_size.  The warp resampler is opaque (cv2 internal).
The cv2.error raised on a malformed landmark list propagates. -/
def norm_crop (fit : List (ℚ × ℚ) → List (ℚ × ℚ) → Sim)
    (warp : Img3 → Sim → ℕ → Img3)
    (img : Img3) (landmark : List (ℚ × ℚ)) (image_size : ℕ) :
    Except AlignErr (Img3 × Sim) :=
  match estimateAffinePartial2D fit landmark ARC_FACE_DST with
  | .error e => .error e
  | .ok M => .ok (warp img M image_size, M)

/-! ## Landmark detection (RoopCore.get_landmarks, lines 53-69) -/

/-- Normalised face-mesh output of the MediaPipe landmarker: point
coordinates in [0,1], indexed by mesh index. -/
def Mesh : Type := ℕ → ℚ × ℚ

/-- The fixed mesh indices picked by get_landmarks (line 67), in the
order left eye, right eye, nose, left mouth corner, right mouth
corner. -/
def fivePointIndices : List ℕ := [468, 473, 1, 61, 291]

/-- RoopCore.get_landmarks (lines 53-69): None when the detector found
no face, otherwise the five fixed mesh points scaled to pixel
coordinates by the image width and height. -/
def get_landmarks (det : Option Mesh) (w h : ℚ) : Option (List (ℚ × ℚ)) :=
  match det with
  | none => none
  | some lm => some (fivePointIndices.map (fun i => ((lm i).1 * w, (lm i).2 * h)))

/-! ## Compositing (RoopCore.swap, lines 163-179) -/

/-- Clipping to a closed interval, as np.clip. -/
def clip (lo hi x : ℚ) : ℚ := max lo (min hi x)

/-- The final blend of one channel value (line 179): float arithmetic
final = face * alpha + target * (1 - alpha) with alpha = mask / 255,
truncated back to an 8-bit integer by astype(np.uint8). -/
def blendPixel (f t m : ℕ) : ℕ :=
  (Int.floor ((f : ℚ) * ((m : ℚ) / 255) + (t : ℚ) * (1 - (m : ℚ) / 255))).toNat

/-- cv2.warpAffine of a 3-channel image to destination size (dw, dh):
the output array has dh rows and dw columns; the interpolated content
comes from the opaque resampler samp. -/
def warpAffine3 (samp : Img3 → Aff → ℕ → ℕ → (ℕ → ℕ → Fin 3 → ℕ))
    (src : Img3) (M : Aff) (dw dh : ℕ) : Img3 :=
  ⟨dh, dw, samp src M dw dh⟩

/-- cv2.warpAffine of a single-channel mask to destination size (dw, dh). -/
def warpAffine1 (samp : Img1 → Aff → ℕ → ℕ → (ℕ → ℕ → ℕ))
    (src : Img1) (M : Aff) (dw dh : ℕ) : Img1 :=
  ⟨dh, dw, samp src M dw dh⟩

/-- Paste-back compositing step (swap lines 163-179): invert the
target alignment matrix, warp the refined face and the soft mask to the
target's width and height, and alpha-blend against the target image. -/
def composite (samp3 : Img3 → Aff → ℕ → ℕ → (ℕ → ℕ → Fin 3 → ℕ))
    (samp1 : Img1 → Aff → ℕ → ℕ → (ℕ → ℕ → ℕ))
    (swapped : Img3) (mask : Img1) (target : Img3) (M : Aff) : Img3 :=
  let invM := invertAffineTransform M
  let warpedFace := warpAffine3 samp3 swapped invM target.w target.h
  let warpedMask := warpAffine1 samp1 mask invM target.w target.h
  ⟨target.h, target.w,
   fun y x c => blendPixel (warpedFace.pix y x c) (target.pix y x c) (warpedMask.pix y x)⟩

/-- Blending with mask value 0 returns the target channel value
unchanged: the float expression collapses to the exact integer. -/
theorem blendPixel_zero (f t : ℕ) : blendPixel f t 0 = t := by
  simp [blendPixel]

/-! ## Post-processor (RoopCore.color_transfer lines 88-111,
RoopCore.apply_sharpening lines 113-117, and their call order in swap
lines 156-161)

Images at this stage are float arrays; they are modelled as
rational-valued channel functions.  color_transfer computes per-channel
mean and standard deviation of both images in LAB space with
cv2.meanStdDev (an opaque reduction whose outputs enter the formula as
parameters here), floors the generated image's standard deviation at
1e-5, rescales each channel in a per-channel loop, and clips the whole
array to [0, 255] at the end.  apply_sharpening blurs with
cv2.GaussianBlur at sigma 2.0 (the blur kernel is opaque, passed as a
parameter applied at sigma 2) and forms 1.5 * img - 0.5 * blur, clipped
to [0, 255]. -/

/-- Rational-valued 3-channel image (the float stage of the pipeline). -/
def Img3Q : Type := ℕ → ℕ → Fin 3 → ℚ

/-- Flooring of the generated image's standard deviation:
np.clip(s_std, 1e-5, None) in color_transfer line 104. -/
def stdFloor (s : ℚ) : ℚ := max s (1/100000)

/-- One iteration of the channel loop of color_transfer (lines
107-108): channel k is rescaled, the other channels are kept. -/
def transferAssign (mGen sGen mRef sRef : Fin 3 → ℚ) (img : Img3Q) (k : Fin 3) :
    Img3Q :=
  fun y x c =>
    if c = k then (img y x k - mGen k) * (sRef k / stdFloor (sGen k)) + mRef k
    else img y x c

/-- RoopCore.color_transfer (lines 88-111) at LAB level: the channel
loop over k = 0, 1, 2 followed by np.clip(s_lab, 0, 255).  mGen, sGen
are the generated image's per-channel LAB mean and standard deviation,
mRef, sRef the reference crop's. -/
def color_transfer (img : Img3Q) (mGen sGen mRef sRef : Fin 3 → ℚ) : Img3Q :=
  fun y x c =>
    clip 0 255 (List.foldl (transferAssign mGen sGen mRef sRef) img [0, 1, 2] y x c)

/-- RoopCore.apply_sharpening (lines 113-117): unsharp masking.  gauss
is the opaque Gaussian blur, applied at sigma 2.0; the result of
cv2.addWeighted(img, 1.5, gauss, -0.5, 0) followed by np.clip is
modelled as one clipped linear combination. -/
def apply_sharpening (gauss : ℚ → Img3Q → Img3Q) (img : Img3Q) : Img3Q :=
  fun y x c => clip 0 255 (3/2 * img y x c - 1/2 * gauss 2 img y x c)

/-- The refine stage of RoopCore.swap (lines 156-161): color transfer
against the aligned target crop's statistics, then sharpening. -/
def refine (gauss : ℚ → Img3Q → Img3Q) (img : Img3Q)
    (mGen sGen mRef sRef : Fin 3 → ℚ) : Img3Q :=
  apply_sharpening gauss (color_transfer img mGen sGen mRef sRef)

/-- The channel loop of color_transfer acts independently per channel:
it equals the direct per-channel rescale formula of the spec. -/
theorem color_transfer_formula (img : Img3Q) (mGen sGen mRef sRef : Fin 3 → ℚ)
    (y x : ℕ) (c : Fin 3) :
    color_transfer img mGen sGen mRef sRef y x c =
      clip 0 255 ((img y x c - mGen c) * (sRef c / max (sGen c) (1/100000)) + mRef c) := by
  simp only [color_transfer, List.foldl, transferAssign, stdFloor]
  fin_cases c <;> simp

/-- C4: the refine stage applies color transfer strictly before
sharpening; the color-transfer step rescales each channel by
(value - gen_mean) * (ref_std / gen_std) + gen-to-ref mean shift with
gen_std floored at 1e-5, and the sharpening step computes 1.5 times the
original minus 0.5 times the sigma-2.0 Gaussian blur, both clipped to
[0, 255]. -/
theorem c4_refine_order_formulas (gauss : ℚ → Img3Q → Img3Q) (img : Img3Q)
    (mGen sGen mRef sRef : Fin 3 → ℚ) :
    refine gauss img mGen sGen mRef sRef =
      apply_sharpening gauss (color_transfer img mGen sGen mRef sRef) ∧
    (∀ y x c, color_transfer img mGen sGen mRef sRef y x c =
      clip 0 255 ((img y x c - mGen c) * (sRef c / max (sGen c) (1/100000)) + mRef c)) ∧
    (∀ b i y x (c : Fin 3), apply_sharpening b i y x c =
      clip 0 255 (3/2 * i y x c - 1/2 * b 2 i y x c)) :=
  ⟨rfl, fun y x c => color_transfer_formula img mGen sGen mRef sRef y x c,
   fun _ _ _ _ _ => rfl⟩

/-! ## Channel statistics for the color-transfer near-identity claim

cv2.meanStdDev over one channel of an n x n crop returns the mean of
the channel values and the square root of their population variance.
The standard deviation enters the theorems as a value sigma with
sigma >= 0 and sigma ^ 2 equal to the variance. -/

/-- Mean of a list of channel values, as cv2.meanStdDev computes it. -/
def listMean (xs : List ℚ) : ℚ := xs.sum / xs.length

/-- Population variance of a list of channel values: the square of the
standard deviation cv2.meanStdDev returns. -/
def listVar (xs : List ℚ) : ℚ :=
  (xs.map (fun u => (u - listMean xs) ^ 2)).sum / xs.length

/-- The values of one channel of an n x n crop, row by row. -/
def channelValues (img : Img3Q) (n : ℕ) (c : Fin 3) : List ℚ :=
  ((List.range n).map (fun y => (List.range n).map (fun x => img y x c))).flatten

theorem listSum_le_mul (xs : List ℚ) (B : ℚ) (h : ∀ u ∈ xs, u ≤ B) :
    xs.sum ≤ B * xs.length := by
  induction xs with
  | nil => simp
  | cons a l ih =>
    have ha : a ≤ B := h a (by simp)
    have hl : l.sum ≤ B * l.length := ih (fun u hu => h u (by simp [hu]))
    simp only [List.sum_cons, List.length_cons]
    push_cast
    linarith

theorem listMean_mem_bounds (xs : List ℚ) (hne : xs ≠ [])
    (h : ∀ u ∈ xs, 0 ≤ u ∧ u ≤ 255) : 0 ≤ listMean xs ∧ listMean xs ≤ 255 := by
  have hlen : 0 < (xs.length : ℚ) := by
    have := List.length_pos.mpr hne
    exact_mod_cast this
  constructor
  · exact div_nonneg (List.sum_nonneg (fun u hu => (h u hu).1)) hlen.le
  · rw [listMean, div_le_iff₀ hlen]
    exact listSum_le_mul xs 255 (fun u hu => (h u hu).2)

/-- Chebyshev-style pointwise bound: any value of a list deviates from
the list's mean by at most the square root of length times variance. -/
theorem sq_dev_le_length_mul_var (xs : List ℚ) (v : ℚ) (hv : v ∈ xs) :
    (v - listMean xs) ^ 2 ≤ xs.length * listVar xs := by
  have hne : xs ≠ [] := List.ne_nil_of_mem hv
  have hlen : 0 < (xs.length : ℚ) := by
    have := List.length_pos.mpr hne
    exact_mod_cast this
  have hmem : (v - listMean xs) ^ 2 ∈ xs.map (fun u => (u - listMean xs) ^ 2) :=
    List.mem_map.mpr ⟨v, hv, rfl⟩
  have hle : (v - listMean xs) ^ 2 ≤ (xs.map (fun u => (u - listMean xs) ^ 2)).sum :=
    List.single_le_sum (fun b hb => by
      obtain ⟨u, _, rfl⟩ := List.mem_map.mp hb
      positivity) _ hmem
  have : (xs.length : ℚ) * listVar xs =
      (xs.map (fun u => (u - listMean xs) ^ 2)).sum := by
    rw [listVar, mul_div_cancel₀]
    exact hlen.ne'
  linarith [this ▸ hle]

theorem channelValues_length (img : Img3Q) (n : ℕ) (c : Fin 3) :
    (channelValues img n c).length = n * n := by
  unfold channelValues
  rw [List.length_flatten, List.map_map]
  have : (List.length ∘ fun y => (List.range n).map (fun x => img y x c)) =
      fun _ => n := by
    funext y
    simp
  rw [this]
  simp [List.map_const', mul_comm]

theorem channelValues_mem (img : Img3Q) (n : ℕ) (c : Fin 3) (y x : ℕ)
    (hy : y < n) (hx : x < n) : img y x c ∈ channelValues img n c :=
  List.mem_flatten.mpr ⟨(List.range n).map (fun t => img y t c),
    List.mem_map.mpr ⟨y, List.mem_range.mpr hy, rfl⟩,
    List.mem_map.mpr ⟨x, List.mem_range.mpr hx, rfl⟩⟩

/-- C5: when the generated crop and the reference crop have identical
per-channel mean and standard deviation in the decorrelated (LAB)
space, the color-transfer stage is a near-identity: at every pixel of
an n x n crop (n at most 128) the output channel value differs from the
input by less than 1/100.  When the shared standard deviation is at
least the 1e-5 floor the stage is the exact identity; below the floor
the deviation of any value from the mean is itself tiny. -/
theorem c5_color_transfer_near_identity (img : Img3Q) (n : ℕ) (σ : Fin 3 → ℚ)
    (c : Fin 3) (y x : ℕ) (hy : y < n) (hx : x < n) (hn : n ≤ 128)
    (hrange : ∀ u ∈ channelValues img n c, 0 ≤ u ∧ u ≤ 255)
    (hs0 : 0 ≤ σ c) (hsd : σ c ^ 2 = listVar (channelValues img n c)) :
    |color_transfer img (fun k => listMean (channelValues img n k)) σ
        (fun k => listMean (channelValues img n k)) σ y x c - img y x c| < 1/100 := by
  rw [color_transfer_formula]
  set xs := channelValues img n c with hxs
  set m := listMean xs with hm_def
  set v := img y x c with hv_def
  have hv : v ∈ xs := channelValues_mem img n c y x hy hx
  have hm := listMean_mem_bounds xs (List.ne_nil_of_mem hv) hrange
  have hvb := hrange v hv
  have hdev : (v - m) ^ 2 ≤ xs.length * listVar xs :=
    sq_dev_le_length_mul_var xs v hv
  rw [← hsd] at hdev
  by_cases hcase : (1 : ℚ)/100000 ≤ σ c
  · have hmax : max (σ c) (1/100000) = σ c := max_eq_left hcase
    have hsne : σ c ≠ 0 := by
      have : (0 : ℚ) < σ c := lt_of_lt_of_le (by norm_num) hcase
      exact this.ne'
    rw [hmax, div_self hsne, mul_one]
    have hclip : clip 0 255 (v - m + m) = v := by
      rw [sub_add_cancel]
      unfold clip
      rw [min_eq_right hvb.2, max_eq_right hvb.1]
    rw [hclip]
    simp
  · push_neg at hcase
    have hmax : max (σ c) (1/100000) = 1/100000 := max_eq_right hcase.le
    rw [hmax]
    set s := σ c / ((1 : ℚ)/100000) with hs_def
    have hs0' : 0 ≤ s := div_nonneg hs0 (by norm_num)
    have hs1 : s ≤ 1 := by
      rw [hs_def, div_le_one (by norm_num)]
      exact hcase.le
    have hpre0 : 0 ≤ (v - m) * s + m := by nlinarith [hm.1, hm.2, hvb.1, hvb.2]
    have hpre255 : (v - m) * s + m ≤ 255 := by nlinarith [hm.1, hm.2, hvb.1, hvb.2]
    have hclip : clip 0 255 ((v - m) * s + m) = (v - m) * s + m := by
      unfold clip
      rw [min_eq_right hpre255, max_eq_right hpre0]
    rw [hclip]
    have hlenq : (xs.length : ℚ) ≤ 16384 := by
      rw [hxs, channelValues_length]
      have hq : (n : ℚ) ≤ 128 := by exact_mod_cast hn
      have hq0 : (0 : ℚ) ≤ (n : ℚ) := by positivity
      push_cast
      nlinarith [hq, hq0]
    have hssq : σ c ^ 2 < (1/100000 : ℚ) ^ 2 :=
      pow_lt_pow_left₀ hcase hs0 two_ne_zero
    have h1 : (xs.length : ℚ) * σ c ^ 2 ≤ 16384 * σ c ^ 2 :=
      mul_le_mul_of_nonneg_right hlenq (sq_nonneg _)
    have h2 : (16384 : ℚ) * σ c ^ 2 < 16384 * (1/100000 : ℚ) ^ 2 :=
      mul_lt_mul_of_pos_left hssq (by norm_num)
    have h3 : (16384 : ℚ) * (1/100000 : ℚ) ^ 2 = (128/100000 : ℚ) ^ 2 := by norm_num
    have hdevlt : (v - m) ^ 2 < (128/100000 : ℚ) ^ 2 := by
      linarith [hdev, h1, h2, h3]
    have habs : |v - m| < 128/100000 := abs_lt_of_sq_lt_sq hdevlt (by norm_num)
    have hshape : (v - m) * s + m - v = (v - m) * (s - 1) := by ring
    have hbnd : |(v - m) * s + m - v| ≤ |v - m| := by
      rw [hshape, abs_mul]
      have h1 : |s - 1| ≤ 1 := abs_le.mpr ⟨by linarith, by linarith⟩
      nlinarith [abs_nonneg (v - m)]
    linarith

/-- Witness for C5 at a constant 2 x 2 crop of channel value 100 with
standard deviation 0. -/
theorem c5_color_transfer_near_identity_witness :
    ((0 : ℕ) < 2) ∧
    (∀ u ∈ channelValues (fun _ _ _ => (100 : ℚ)) 2 0, 0 ≤ u ∧ u ≤ 255) ∧
    ((fun _ : Fin 3 => (0 : ℚ)) 0 ^ 2 =
      listVar (channelValues (fun _ _ _ => (100 : ℚ)) 2 0)) ∧
    |color_transfer (fun _ _ _ => (100 : ℚ))
        (fun k => listMean (channelValues (fun _ _ _ => (100 : ℚ)) 2 k))
        (fun _ => 0)
        (fun k => listMean (channelValues (fun _ _ _ => (100 : ℚ)) 2 k))
        (fun _ => 0) 0 0 0 - (fun _ _ _ => (100 : ℚ)) 0 0 0| < 1/100 := by
  have hvals : channelValues (fun _ _ _ => (100 : ℚ)) 2 0 = [100, 100, 100, 100] := by
    norm_num [channelValues, List.range_succ]
  have hr : ∀ u ∈ channelValues (fun _ _ _ => (100 : ℚ)) 2 0, 0 ≤ u ∧ u ≤ 255 := by
    rw [hvals]
    intro u hu
    simp only [List.mem_cons, List.not_mem_nil, or_false] at hu
    rcases hu with h | h | h | h <;> rw [h] <;> norm_num
  have hvar : (fun _ : Fin 3 => (0 : ℚ)) 0 ^ 2 =
      listVar (channelValues (fun _ _ _ => (100 : ℚ)) 2 0) := by
    rw [hvals]
    norm_num [listVar, listMean]
  refine ⟨by norm_num, hr, hvar, ?_⟩
  exact c5_color_transfer_near_identity (fun _ _ _ => (100 : ℚ)) 2 (fun _ => 0)
    0 0 0 (by norm_num) (by norm_num) (by norm_num) hr (by norm_num) hvar

/-! ## Soft mask construction (RoopCore.swap lines 167-170)

The mask starts as a 128 x 128 single-channel array filled with 255;
cv2.rectangle(mask, (0, 0), (128, 128), 0, 10) strokes the rectangle
boundary with a black line of thickness 10 centred on the boundary, so
inside the image pixels within 5 of the near edges (index <= 5) and
within 5 of the far boundary at 128 (index >= 123) become 0; then
cv2.GaussianBlur(mask, (15, 15), 0) convolves with a separable 15-tap
Gaussian kernel (all weights positive, summing to 1) under
BORDER_REFLECT_101 handling.  The kernel weights are cv2's
floating-point Gaussian coefficients, universally quantified here. -/

/-- The border band blackened by the thickness-10 rectangle stroke. -/
def inBorderBand (x y : ℕ) : Prop := x ≤ 5 ∨ y ≤ 5 ∨ 123 ≤ x ∨ 123 ≤ y

instance (x y : ℕ) : Decidable (inBorderBand x y) := by
  unfold inBorderBand
  infer_instance

/-- The mask before blurring: 255 everywhere except the border band. -/
def maskBase (x y : ℕ) : ℚ := if inBorderBand x y then 0 else 255

/-- BORDER_REFLECT_101 index handling for a length-128 axis (valid for
the offsets reached by a 15-tap kernel). -/
def reflect101 (z : ℤ) : ℤ :=
  if z < 0 then -z else if 127 < z then 254 - z else z

/-- The blurred mask value at pixel (x, y): separable 15 x 15
convolution with one-dimensional kernel weights wgt. -/
def blurMaskAt (wgt : Fin 15 → ℚ) (x y : ℕ) : ℚ :=
  ∑ i : Fin 15, ∑ j : Fin 15,
    wgt i * wgt j *
      maskBase (reflect101 ((x : ℤ) + (i : ℤ) - 7)).toNat
        (reflect101 ((y : ℤ) + (j : ℤ) - 7)).toNat

theorem blurMaskAt_center (wgt : Fin 15 → ℚ) (hsum : ∑ i : Fin 15, wgt i = 1) :
    blurMaskAt wgt 64 64 = 255 := by
  have hall : ∀ i j : Fin 15,
      maskBase (reflect101 ((64 : ℤ) + (i : ℤ) - 7)).toNat
        (reflect101 ((64 : ℤ) + (j : ℤ) - 7)).toNat = 255 := by decide
  unfold blurMaskAt
  calc (∑ i : Fin 15, ∑ j : Fin 15, wgt i * wgt j *
          maskBase (reflect101 ((64 : ℤ) + (i : ℤ) - 7)).toNat
            (reflect101 ((64 : ℤ) + (j : ℤ) - 7)).toNat)
      = ∑ i : Fin 15, ∑ j : Fin 15, wgt i * wgt j * 255 := by
        refine Finset.sum_congr rfl (fun i _ => Finset.sum_congr rfl (fun j _ => ?_))
        rw [hall i j]
    _ = ∑ i : Fin 15, wgt i * 255 := by
        refine Finset.sum_congr rfl (fun i _ => ?_)
        rw [← Finset.sum_mul, ← Finset.mul_sum, hsum, mul_one]
    _ = 255 := by rw [← Finset.sum_mul, hsum, one_mul]

/-- C7: the soft mask is a 128 x 128 single-channel image, fully opaque
except for the stroked border band which is zero, and after the 15-tap
Gaussian blur the pixel at the geometric corner (0, 0) has strictly
lower opacity than the pixel at the center (64, 64), for any positive
normalised kernel weights. -/
theorem c7_mask_corner_lt_center (wgt : Fin 15 → ℚ)
    (hpos : ∀ i, 0 < wgt i) (hsum : ∑ i : Fin 15, wgt i = 1) :
    (∀ x y, inBorderBand x y → maskBase x y = 0) ∧
    (∀ x y, ¬inBorderBand x y → maskBase x y = 255) ∧
    blurMaskAt wgt 64 64 = 255 ∧
    blurMaskAt wgt 0 0 < blurMaskAt wgt 64 64 := by
  refine ⟨fun x y h => if_pos h, fun x y h => if_neg h, blurMaskAt_center wgt hsum, ?_⟩
  rw [blurMaskAt_center wgt hsum]
  have hle : ∀ i j : Fin 15,
      maskBase (reflect101 ((0 : ℤ) + (i : ℤ) - 7)).toNat
        (reflect101 ((0 : ℤ) + (j : ℤ) - 7)).toNat ≤ 255 := by decide
  have hcc : maskBase (reflect101 ((0 : ℤ) + ((7 : Fin 15) : ℤ) - 7)).toNat
      (reflect101 ((0 : ℤ) + ((7 : Fin 15) : ℤ) - 7)).toNat = 0 := by decide
  have hinner : ∀ i : Fin 15,
      (∑ j : Fin 15, wgt i * wgt j *
        maskBase (reflect101 ((0 : ℤ) + (i : ℤ) - 7)).toNat
          (reflect101 ((0 : ℤ) + (j : ℤ) - 7)).toNat) ≤ wgt i * 255 := by
    intro i
    calc (∑ j : Fin 15, wgt i * wgt j *
            maskBase (reflect101 ((0 : ℤ) + (i : ℤ) - 7)).toNat
              (reflect101 ((0 : ℤ) + (j : ℤ) - 7)).toNat)
        ≤ ∑ j : Fin 15, wgt i * wgt j * 255 := by
          refine Finset.sum_le_sum (fun j _ => ?_)
          exact mul_le_mul_of_nonneg_left (hle i j)
            (mul_nonneg (hpos i).le (hpos j).le)
      _ = wgt i * ∑ j : Fin 15, wgt j * 255 := by
          rw [Finset.mul_sum]
          exact Finset.sum_congr rfl (fun j _ => by ring)
      _ = wgt i * 255 := by rw [← Finset.sum_mul, hsum, one_mul]
  have hstrict :
      (∑ j : Fin 15, wgt 7 * wgt j *
        maskBase (reflect101 ((0 : ℤ) + ((7 : Fin 15) : ℤ) - 7)).toNat
          (reflect101 ((0 : ℤ) + (j : ℤ) - 7)).toNat) < wgt 7 * 255 := by
    have hterm : wgt 7 * wgt 7 *
        maskBase (reflect101 ((0 : ℤ) + ((7 : Fin 15) : ℤ) - 7)).toNat
          (reflect101 ((0 : ℤ) + ((7 : Fin 15) : ℤ) - 7)).toNat <
        wgt 7 * wgt 7 * 255 := by
      rw [hcc, mul_zero]
      exact mul_pos (mul_pos (hpos 7) (hpos 7)) (by norm_num)
    calc (∑ j : Fin 15, wgt 7 * wgt j *
            maskBase (reflect101 ((0 : ℤ) + ((7 : Fin 15) : ℤ) - 7)).toNat
              (reflect101 ((0 : ℤ) + (j : ℤ) - 7)).toNat)
        < ∑ j : Fin 15, wgt 7 * wgt j * 255 := by
          refine Finset.sum_lt_sum (fun j _ => ?_) ⟨7, Finset.mem_univ 7, hterm⟩
          exact mul_le_mul_of_nonneg_left (hle 7 j)
            (mul_nonneg (hpos 7).le (hpos j).le)
      _ = wgt 7 * ∑ j : Fin 15, wgt j * 255 := by
          rw [Finset.mul_sum]
          exact Finset.sum_congr rfl (fun j _ => by ring)
      _ = wgt 7 * 255 := by rw [← Finset.sum_mul, hsum, one_mul]
  calc blurMaskAt wgt 0 0
      < ∑ i : Fin 15, wgt i * 255 := by
        unfold blurMaskAt
        exact Finset.sum_lt_sum (fun i _ => hinner i) ⟨7, Finset.mem_univ 7, hstrict⟩
    _ = 255 := by rw [← Finset.sum_mul, hsum, one_mul]

/-- Witness for C7 at the uniform kernel of weight 1/15. -/
theorem c7_mask_corner_lt_center_witness :
    (∀ i : Fin 15, (0 : ℚ) < (fun _ : Fin 15 => (1 : ℚ)/15) i) ∧
    (∑ i : Fin 15, (fun _ : Fin 15 => (1 : ℚ)/15) i) = 1 ∧
    blurMaskAt (fun _ => 1/15) 0 0 < blurMaskAt (fun _ => 1/15) 64 64 := by
  have hpos : ∀ i : Fin 15, (0 : ℚ) < (fun _ : Fin 15 => (1 : ℚ)/15) i :=
    fun _ => by norm_num
  have hsum : (∑ i : Fin 15, (fun _ : Fin 15 => (1 : ℚ)/15) i) = 1 := by
    simp only [Finset.sum_const, Finset.card_univ, Fintype.card_fin, nsmul_eq_mul]
    norm_num
  exact ⟨hpos, hsum, (c7_mask_corner_lt_center (fun _ => 1/15) hpos hsum).2.2.2⟩

/-! ## Embedder (RoopCore.get_embedding, lines 77-86)

The ArcFace model output on an accepted aligned crop is an arbitrary
512-dimensional real vector; the code divides it by its L2 norm
(np.linalg.norm) before returning it.  Real.sqrt models the
floating-point square root inside np.linalg.norm. -/

/-- The L2 norm of a 512-dimensional vector, as np.linalg.norm
computes it. -/
noncomputable def l2norm (v : Fin 512 → ℝ) : ℝ :=
  Real.sqrt (∑ i, v i ^ 2)

/-- RoopCore.get_embedding output stage (line 86): the raw model output
divided by its L2 norm. -/
noncomputable def get_embedding (raw : Fin 512 → ℝ) : Fin 512 → ℝ :=
  fun i => raw i / l2norm raw

/-- C2: for every aligned crop accepted by the embedder (raw model
output nonzero), the returned 512-dimensional embedding has L2 norm
equal to 1, in particular within the 1e-4 tolerance. -/
theorem c2_embedding_unit_norm (raw : Fin 512 → ℝ) (hraw : raw ≠ 0) :
    l2norm (get_embedding raw) = 1 ∧
    |l2norm (get_embedding raw) - 1| < 1/10000 := by
  obtain ⟨i0, hi0⟩ := Function.ne_iff.mp hraw
  have hS : (0 : ℝ) < ∑ i, raw i ^ 2 := by
    refine Finset.sum_pos' (fun i _ => sq_nonneg _) ⟨i0, Finset.mem_univ i0, ?_⟩
    have : raw i0 ≠ 0 := hi0
    positivity
  have hs : (0 : ℝ) < Real.sqrt (∑ i, raw i ^ 2) := Real.sqrt_pos.mpr hS
  have hsum : (∑ i, get_embedding raw i ^ 2) = 1 := by
    unfold get_embedding l2norm
    have hsq : Real.sqrt (∑ i, raw i ^ 2) ^ 2 = ∑ i, raw i ^ 2 :=
      Real.sq_sqrt hS.le
    calc (∑ i, (raw i / Real.sqrt (∑ j, raw j ^ 2)) ^ 2)
        = (∑ i, raw i ^ 2) / Real.sqrt (∑ j, raw j ^ 2) ^ 2 := by
          rw [Finset.sum_congr rfl
            (fun i _ => div_pow (raw i) (Real.sqrt (∑ j, raw j ^ 2)) 2),
            ← Finset.sum_div]
      _ = 1 := by rw [hsq, div_self hS.ne']
  have hone : l2norm (get_embedding raw) = 1 := by
    unfold l2norm
    rw [hsum, Real.sqrt_one]
  exact ⟨hone, by rw [hone]; norm_num⟩

/-- Witness for C2 at the all-ones raw model output. -/
theorem c2_embedding_unit_norm_witness :
    ((fun _ : Fin 512 => (1 : ℝ)) ≠ 0) ∧
    l2norm (get_embedding (fun _ : Fin 512 => (1 : ℝ))) = 1 := by
  have hne : (fun _ : Fin 512 => (1 : ℝ)) ≠ 0 := by
    intro h
    exact one_ne_zero (congrFun h 0)
  exact ⟨hne, (c2_embedding_unit_norm (fun _ => 1) hne).1⟩

/-- C1: in the compositing step, every pixel where the warped mask's
alpha value is 0 yields a final pixel exactly equal to the target-image
pixel, and the output image's height and width equal the target's. -/
theorem c1_composite_frame (samp3 : Img3 → Aff → ℕ → ℕ → (ℕ → ℕ → Fin 3 → ℕ))
    (samp1 : Img1 → Aff → ℕ → ℕ → (ℕ → ℕ → ℕ))
    (swapped : Img3) (mask : Img1) (target : Img3) (M : Aff) :
    (composite samp3 samp1 swapped mask target M).h = target.h ∧
    (composite samp3 samp1 swapped mask target M).w = target.w ∧
    ∀ y x c, samp1 mask (invertAffineTransform M) target.w target.h y x = 0 →
      (composite samp3 samp1 swapped mask target M).pix y x c = target.pix y x c := by
  refine ⟨rfl, rfl, fun y x c hm => ?_⟩
  simp only [composite, warpAffine1, warpAffine3]
  rw [hm, blendPixel_zero]

/-- Witness for C1 at a concrete compositing call whose mask sampler is
identically zero: the output keeps the target's dimensions and pixel. -/
theorem c1_composite_frame_witness :
    (composite (fun _ _ _ _ _ _ _ => 9) (fun _ _ _ _ _ _ => 0)
      ⟨2, 2, fun _ _ _ => 1⟩ ⟨128, 128, fun _ _ => 0⟩
      ⟨3, 4, fun _ _ _ => 7⟩ ⟨1, 0, 0, 0, 1, 0⟩).h = 3 ∧
    (composite (fun _ _ _ _ _ _ _ => 9) (fun _ _ _ _ _ _ => 0)
      ⟨2, 2, fun _ _ _ => 1⟩ ⟨128, 128, fun _ _ => 0⟩
      ⟨3, 4, fun _ _ _ => 7⟩ ⟨1, 0, 0, 0, 1, 0⟩).w = 4 ∧
    (composite (fun _ _ _ _ _ _ _ => 9) (fun _ _ _ _ _ _ => 0)
      ⟨2, 2, fun _ _ _ => 1⟩ ⟨128, 128, fun _ _ => 0⟩
      ⟨3, 4, fun _ _ _ => 7⟩ ⟨1, 0, 0, 0, 1, 0⟩).pix 0 0 0 = 7 := by
  obtain ⟨h1, h2, h3⟩ := c1_composite_frame (fun _ _ _ _ _ _ _ => 9)
    (fun _ _ _ _ _ _ => 0) ⟨2, 2, fun _ _ _ => 1⟩ ⟨128, 128, fun _ _ => 0⟩
    ⟨3, 4, fun _ _ _ => 7⟩ ⟨1, 0, 0, 0, 1, 0⟩
  exact ⟨h1, h2, h3 0 0 0 rfl⟩

/-- C6: for every similarity transform estimated by the pipeline (with
a nondegenerate linear part), applying the transform and then its
computed inverse returns each of the four corners of the canonical
128x128 crop exactly to its original position. -/
theorem c6_roundtrip_corners (s : Sim) (hnd : s.a ^ 2 + s.b ^ 2 ≠ 0) :
    ∀ p ∈ cropCorners128,
      applyAff (invertAffineTransform s.toAff) (applyAff s.toAff p) = p := by
  intro p _
  apply applyAff_invert
  have hdet : affDet s.toAff = s.a ^ 2 + s.b ^ 2 := by
    simp only [affDet, Sim.toAff]; ring
  rw [hdet]; exact hnd

/-- Witness for C6 at the concrete similarity (a, b, tx, ty) =
(3, 4, 10, -5). -/
theorem c6_roundtrip_corners_witness :
    ((3 : ℚ) ^ 2 + (4 : ℚ) ^ 2 ≠ 0) ∧
    ∀ p ∈ cropCorners128,
      applyAff (invertAffineTransform (Sim.toAff ⟨3, 4, 10, -5⟩))
        (applyAff (Sim.toAff ⟨3, 4, 10, -5⟩) p) = p := by
  constructor
  · norm_num
  · exact c6_roundtrip_corners ⟨3, 4, 10, -5⟩ (by norm_num)

/-- C8: a landmark list of fewer than 5 points makes the alignment step
signal an invalid-input error (the robust estimator rejects the
mismatched point counts) and never return a padded success. -/
theorem c8_norm_crop_rejects_short
    (fit : List (ℚ × ℚ) → List (ℚ × ℚ) → Sim) (warp : Img3 → Sim → ℕ → Img3)
    (img : Img3) (lm : List (ℚ × ℚ)) (n : ℕ) (hlen : lm.length < 5) :
    norm_crop fit warp img lm n = .error .invalidInput ∧
    ∀ r, norm_crop fit warp img lm n ≠ .ok r := by
  have hdst : ARC_FACE_DST.length = 5 := rfl
  have hne : ¬(lm.length = ARC_FACE_DST.length ∧ 2 ≤ lm.length) := by
    rw [hdst]; omega
  have heq : norm_crop fit warp img lm n = .error .invalidInput := by
    simp only [norm_crop, estimateAffinePartial2D, if_neg hne]
  exact ⟨heq, fun r hr => by rw [heq] at hr; exact Except.noConfusion hr⟩

/-- Witness for C8 at a concrete one-point landmark list. -/
theorem c8_norm_crop_rejects_short_witness :
    ([((0 : ℚ), (0 : ℚ))].length < 5) ∧
    norm_crop (fun _ _ => default) (fun i _ _ => i) ⟨1, 1, fun _ _ _ => 0⟩
      [((0 : ℚ), (0 : ℚ))] 112 = .error .invalidInput := by
  refine ⟨by decide, ?_⟩
  exact (c8_norm_crop_rejects_short (fun _ _ => default) (fun i _ _ => i)
    ⟨1, 1, fun _ _ _ => 0⟩ [((0 : ℚ), (0 : ℚ))] 112 (by decide)).1

/-- C10: the landmark-detection step returns either None (no face) or
exactly the 5 points at the fixed mesh indices 468, 473, 1, 61, 291 in
the order left eye, right eye, nose, left mouth corner, right mouth
corner, scaled by the image width and height; a returned landmark set
always has exactly 5 points. -/
theorem c10_get_landmarks_shape (det : Option Mesh) (w h : ℚ) :
    (det = none ∧ get_landmarks det w h = none) ∨
    ∃ lm, det = some lm ∧
      get_landmarks det w h =
        some [((lm 468).1 * w, (lm 468).2 * h), ((lm 473).1 * w, (lm 473).2 * h),
              ((lm 1).1 * w, (lm 1).2 * h), ((lm 61).1 * w, (lm 61).2 * h),
              ((lm 291).1 * w, (lm 291).2 * h)] ∧
      Option.map List.length (get_landmarks det w h) = some 5 := by
  cases det with
  | none => exact Or.inl ⟨rfl, rfl⟩
  | some lm => exact Or.inr ⟨lm, rfl, rfl, rfl⟩

/-! ## Control flow of the two pipelines

The raw-inference pipeline: RoopCore.swap (face_swap_ml.py lines
119-183) and its command entry (lines 185-193).  swap reads both images
with cv2.imread (None when missing/unreadable, never checked), then
detects, aligns and embeds the source, detects and aligns the target,
runs the inswapper, refines, composites and writes.  Calling
get_landmarks on a None image raises an uncaught exception inside
cv2.cvtColor.  The entry point calls roop.swap and discards its return
value, so the interpreter exits 0 unless an exception escapes.

The insightface pipeline: FaceSwapPipeline.swap (face_swap.py lines
54-110) checks both imread results before any detection and returns
False; main (lines 113-128) calls sys.exit(1) when swap returns
False. -/

/-- The stages of RoopCore.swap, in program order. -/
inductive MlStep where
  | loadSource
  | loadTarget
  | detectSource
  | alignSource
  | embedSource
  | detectTarget
  | alignTarget
  | inferSwap
  | colorStep
  | sharpenStep
  | pasteBack
  | writeOutput
deriving DecidableEq

/-- How one invocation of RoopCore.swap ends: True, False (a landmark
result was None), or an uncaught exception out of cv2.cvtColor on a
None image. -/
inductive MlOutcome where
  | ok
  | noFace
  | exn
deriving DecidableEq

/-- The inputs RoopCore.swap consumes: the two cv2.imread results and
the landmark detector's verdict per loaded image. -/
structure MlEnv where
  readSource : Option ℕ
  readTarget : Option ℕ
  detect : ℕ → Option ℕ

/-- RoopCore.swap control flow (lines 119-183): the outcome and the
ordered list of stages entered. -/
def mlSwap (env : MlEnv) : MlOutcome × List MlStep :=
  match env.readSource with
  | none => (.exn, [.loadSource, .loadTarget, .detectSource])
  | some src =>
    match env.detect src with
    | none => (.noFace, [.loadSource, .loadTarget, .detectSource])
    | some _ =>
      match env.readTarget with
      | none => (.exn, [.loadSource, .loadTarget, .detectSource, .alignSource,
          .embedSource, .detectTarget])
      | some tgt =>
        match env.detect tgt with
        | none => (.noFace, [.loadSource, .loadTarget, .detectSource, .alignSource,
            .embedSource, .detectTarget])
        | some _ => (.ok, [.loadSource, .loadTarget, .detectSource, .alignSource,
            .embedSource, .detectTarget, .alignTarget, .inferSwap, .colorStep,
            .sharpenStep, .pasteBack, .writeOutput])

/-- Exit status of the face_swap_ml.py process (lines 185-193): the
script ignores swap's return value, so only an uncaught exception makes
the interpreter exit nonzero. -/
def mlMainExit (env : MlEnv) : ℕ :=
  match (mlSwap env).1 with
  | .exn => 1
  | _ => 0

/-- C3: at a source image that loads but contains no detectable face,
RoopCore.swap stops right after source detection — the aligner, the
embedder and the swap inference are never entered and the method
returns the no-face outcome — but the process exit status is 0, not
nonzero, because the command entry discards swap's return value. -/
theorem c3_no_face_source_aborts_exit_zero :
    mlSwap ⟨some 0, some 0, fun _ => none⟩ =
      (.noFace, [.loadSource, .loadTarget, .detectSource]) ∧
    MlStep.alignSource ∉ (mlSwap ⟨some 0, some 0, fun _ => none⟩).2 ∧
    MlStep.embedSource ∉ (mlSwap ⟨some 0, some 0, fun _ => none⟩).2 ∧
    MlStep.inferSwap ∉ (mlSwap ⟨some 0, some 0, fun _ => none⟩).2 ∧
    mlMainExit ⟨some 0, some 0, fun _ => none⟩ = 0 := by
  refine ⟨rfl, ?_, ?_, ?_, rfl⟩ <;> decide

/-- The stages of FaceSwapPipeline.swap (face_swap.py), in program
order; reading both images is one stage (lines 57-58). -/
inductive FsStep where
  | readImages
  | detectFaces
  | swapFaces
  | writeOutput
deriving DecidableEq

/-- How FaceSwapPipeline.swap ends. -/
inductive FsOutcome where
  | ok
  | loadSourceFail
  | loadTargetFail
  | noFaceSource
  | noFaceTarget
deriving DecidableEq

/-- The inputs FaceSwapPipeline.swap consumes: the two cv2.imread
results and the detector's face list per loaded image. -/
structure FsEnv where
  readSource : Option ℕ
  readTarget : Option ℕ
  detect : ℕ → List ℕ

/-- FaceSwapPipeline.swap control flow (face_swap.py lines 54-110):
load checks come before detection, detection of both images before the
zero-face checks. -/
def fsSwap (env : FsEnv) : FsOutcome × List FsStep :=
  match env.readSource with
  | none => (.loadSourceFail, [.readImages])
  | some src =>
    match env.readTarget with
    | none => (.loadTargetFail, [.readImages])
    | some tgt =>
      if (env.detect src).length = 0 then (.noFaceSource, [.readImages, .detectFaces])
      else if (env.detect tgt).length = 0 then
        (.noFaceTarget, [.readImages, .detectFaces])
      else (.ok, [.readImages, .detectFaces, .swapFaces, .writeOutput])

/-- Exit status of the face_swap.py process: main calls sys.exit(1)
whenever swap returns False (lines 125-128). -/
def fsMainExit (env : FsEnv) : ℕ :=
  if (fsSwap env).1 = .ok then 0 else 1

/-- Counterexample to C9 as stated: in the raw-inference pipeline a
missing source image is never reported as a load error — the None image
is passed on, the detection stage is entered (contradicting "aborts
without proceeding to detection"), and the run ends in an uncaught
exception rather than a reported ImageLoadError outcome. -/
theorem c9_missing_image_counterexample :
    MlStep.detectSource ∈ (mlSwap ⟨none, some 0, fun _ => none⟩).2 ∧
    (mlSwap ⟨none, some 0, fun _ => none⟩).1 = .exn := by
  constructor <;> decide

/-- C9 amended: for a missing or unreadable image path the insightface
pipeline (face_swap.py) reports the load failure, aborts before any
detection or inference, and its process exits 1.  The raw-inference
pipeline (face_swap_ml.py) has no load check: a missing source image
reaches the landmark stage, which raises an uncaught exception inside
the color conversion — the process exits nonzero but without a reported
load-error outcome and after entering detection; a missing target image
behaves the same (exception in the target detection stage, exit 1) when
the source stage succeeds, but when no face is detected in the source,
swap returns the no-face outcome before ever touching the missing
target and the process exits 0, reporting nothing about the bad path. -/
theorem c9_missing_image_amended :
    (∀ env : FsEnv, env.readSource = none ∨ env.readTarget = none →
      ((fsSwap env).1 = .loadSourceFail ∨ (fsSwap env).1 = .loadTargetFail) ∧
      FsStep.detectFaces ∉ (fsSwap env).2 ∧
      FsStep.swapFaces ∉ (fsSwap env).2 ∧
      fsMainExit env = 1) ∧
    (∀ env : MlEnv, env.readSource = none →
      (mlSwap env).1 = .exn ∧
      MlStep.detectSource ∈ (mlSwap env).2 ∧
      mlMainExit env = 1) ∧
    (∀ env : MlEnv, ∀ src, env.readSource = some src → env.readTarget = none →
      ((∃ k, env.detect src = some k) →
        (mlSwap env).1 = .exn ∧
        MlStep.detectTarget ∈ (mlSwap env).2 ∧
        mlMainExit env = 1) ∧
      (env.detect src = none →
        (mlSwap env).1 = .noFace ∧
        MlStep.detectTarget ∉ (mlSwap env).2 ∧
        mlMainExit env = 0)) := by
  refine ⟨?_, ?_, ?_⟩
  · rintro ⟨rs, rt, det⟩ h
    cases rs with
    | none =>
      refine ⟨Or.inl rfl, ?_, ?_, rfl⟩ <;> simp [fsSwap]
    | some src =>
      cases rt with
      | none =>
        refine ⟨Or.inr rfl, ?_, ?_, rfl⟩ <;> simp [fsSwap]
      | some tgt =>
        rcases h with h | h <;> exact absurd h (by simp)
  · rintro ⟨rs, rt, det⟩ h
    cases rs with
    | none => exact ⟨rfl, by simp [mlSwap], rfl⟩
    | some src => exact absurd h (by simp)
  · rintro ⟨rs, rt, det⟩ src h1 h2
    simp only at h1 h2
    subst h1
    subst h2
    constructor
    · rintro ⟨k, hk⟩
      simp only at hk
      refine ⟨?_, ?_, ?_⟩ <;> simp [mlSwap, mlMainExit, hk]
    · intro hnone
      simp only at hnone
      refine ⟨?_, ?_, ?_⟩ <;> simp [mlSwap, mlMainExit, hnone]

/-- Witness for C9's amended theorem at concrete environments: a
missing source image in both pipelines, and a missing target image in
the raw-inference pipeline with a detected and with an undetected
source face. -/
theorem c9_missing_image_amended_witness :
    fsMainExit ⟨none, some 0, fun _ => []⟩ = 1 ∧
    mlMainExit ⟨none, some 0, fun _ => none⟩ = 1 ∧
    mlMainExit ⟨some 0, none, fun _ => some 0⟩ = 1 ∧
    mlMainExit ⟨some 0, none, fun _ => none⟩ = 0 := by
  refine ⟨(c9_missing_image_amended.1 ⟨none, some 0, fun _ => []⟩
      (Or.inl rfl)).2.2.2,
    (c9_missing_image_amended.2.1 ⟨none, some 0, fun _ => none⟩ rfl).2.2,
    ((c9_missing_image_amended.2.2 ⟨some 0, none, fun _ => some 0⟩ 0 rfl
      rfl).1 ⟨0, rfl⟩).2.2,
    ((c9_missing_image_amended.2.2 ⟨some 0, none, fun _ => none⟩ 0 rfl
      rfl).2 rfl).2.2⟩

end FaceSwap
